import Mathlib

/-!
Shallow embedding of the WPK/IDX archive reader of this repository
(src/core/wpk/wpk_file.py, src/core/wpk/class_types.py,
src/core/detection.py, src/core/args.py).

Byte strings are modelled as `List Nat` (one Nat per byte).  Python
exceptions are modelled by `Except String` / `Option`.  The external
collaborators that are not part of the sources under study
(core.npk.decompression, core.npk.decryption, core.npk.detection,
core.npk.enums, core.binary_readers, core.logger) are modelled from the
spec as explicit capability parameters and small definitions, each
marked in its doc comment.
-/

/-- Byte string: one `Nat` per byte. -/
abbrev Bytes := List Nat

/-- Modelled from the spec: levels of the external logging collaborator
(core.logger is not under src/; the spec names "a logging sink accepting
leveled messages" with debug/info/error/critical levels in use). -/
inductive LogLevel where
  | debug | info | error | critical
deriving DecidableEq

/-- A leveled message sent to the logging collaborator; the `String` is
the (uninterpolated) format string appearing in the source. -/
abbrev LogMsg := LogLevel × String

/-- `WPKEntryDataFlags` (class_types.py lines 14-22): an IntFlag bitset
with independent bits TEXT, NXS3_PACKED, ROTOR_PACKED, ENCRYPTED, ERROR,
modelled as one Bool per bit; `{}` is `NONE` (no bit set). -/
structure WPKEntryDataFlags where
  text : Bool := false
  nxs3_packed : Bool := false
  rotor_packed : Bool := false
  encrypted : Bool := false
  error : Bool := false
deriving DecidableEq

/-- `WPKEntryDataFlags.NONE`. -/
def WPKEntryDataFlags.NONE : WPKEntryDataFlags := {}

/-- Modelled from the spec: `core.npk.enums.NPKEntryFileCategories` is
not under src/; the spec lists "a coarse content category (enumerated:
MESH, TEXT, OTHER, ...)", with OTHER the default of a fresh entry.
Further unknown members are represented by `other_ n`. -/
inductive NPKEntryFileCategories where
  | OTHER
  | MESH
  | TEXTDOC
  | other_ : Nat → NPKEntryFileCategories
deriving DecidableEq

/-- `WPKReadOptions` (class_types.py lines 25-31). -/
structure WPKReadOptions where
  decryption_key : Option Int := none
  aes_key : Option Bytes := none
  info_size : Option Nat := none
deriving DecidableEq

/-- `WPKIndex` (class_types.py lines 34-49).  The compression/decryption
tags are u16 values of the enums `CompressionType` / `DecryptionType`
(core.npk.enums, not under src/); modelled from the spec as raw `Nat`
tags with the distinguished `NONE` member represented by `0`. -/
structure WPKIndex where
  filename : Bytes := []
  file_offset : Nat := 0
  file_length : Nat := 0
  file_original_length : Nat := 0
  zcrc : Nat := 0
  crc : Nat := 0
  file_structure : Option Bytes := none
  zip_flag : Nat := 0
  encrypt_flag : Nat := 0
  data_flags : WPKEntryDataFlags := {}
deriving DecidableEq

/-- `WPKEntry` (class_types.py lines 61-68): all `WPKIndex` fields plus
decoded content, detected extension and category (per the spec's design
note, the subclass is flattened into one structure duplicating the
record fields). -/
structure WPKEntry where
  filename : Bytes := []
  file_offset : Nat := 0
  file_length : Nat := 0
  file_original_length : Nat := 0
  zcrc : Nat := 0
  crc : Nat := 0
  file_structure : Option Bytes := none
  zip_flag : Nat := 0
  encrypt_flag : Nat := 0
  data_flags : WPKEntryDataFlags := {}
  data : Bytes := []
  extension : Bytes := []
  category : NPKEntryFileCategories := .OTHER
deriving DecidableEq

/-- The `for attr in vars(idx): setattr(entry, attr, getattr(idx, attr))`
copy in `WPKFile.read_entry` (wpk_file.py lines 88-89): every index
field is copied onto a fresh entry; the entry-only fields keep their
`WPKEntry()` defaults. -/
def WPKEntry.ofIndex (idx : WPKIndex) : WPKEntry :=
  { filename := idx.filename,
    file_offset := idx.file_offset,
    file_length := idx.file_length,
    file_original_length := idx.file_original_length,
    zcrc := idx.zcrc,
    crc := idx.crc,
    file_structure := idx.file_structure,
    zip_flag := idx.zip_flag,
    encrypt_flag := idx.encrypt_flag,
    data_flags := idx.data_flags }

/-- Modelled from the spec: the decode primitives consumed by the
pipeline (core.npk.decompression / decryption / detection, not under
src/) as capability interfaces, following spec sections 4.3/6 and the
design note "external decode primitives as capability interfaces":
`decrypt_entry` and `decompress_entry` are fallible ("fails on bad
key/corrupt input", "fails on corrupt/incompatible stream"; `none`
models a raised exception); the secondary-layer sniffers, the
binary/text heuristic, extension derivation and category derivation are
total.  `zip_tag_valid` / `encrypt_tag_valid` model the enum validation
of `CompressionType(u16)` / `DecryptionType(u16)` during index parsing
(an unrecognized value raises, a fatal construction failure). -/
structure DecodePrimitives where
  zip_tag_valid : Nat → Bool
  encrypt_tag_valid : Nat → Bool
  decrypt_entry : WPKEntry → Option Int → Option Bytes
  decompress_entry : WPKEntry → Option Bytes
  check_rotor : WPKEntry → Bool
  unpack_rotor : Bytes → Bytes
  check_nxs3 : WPKEntry → Bool
  unpack_nxs3 : Bytes → Bytes
  is_binary : Bytes → Bool
  get_ext : Bytes → WPKEntryDataFlags → Bytes
  get_file_category : Bytes → NPKEntryFileCategories

/-- Modelled from the spec: `core.binary_readers.read_uint32` is not
under src/; per spec section 6 all index integers are little-endian and
a short read on the index file is a fatal structural error.  Returns the
value and the remaining stream. -/
def read_uint32 : Bytes → Option (Nat × Bytes)
  | b0 :: b1 :: b2 :: b3 :: rest =>
      some (b0 + 256 * b1 + 65536 * b2 + 16777216 * b3, rest)
  | _ => none

/-- Modelled from the spec: `core.binary_readers.read_uint16`,
little-endian u16, short read fatal. -/
def read_uint16 : Bytes → Option (Nat × Bytes)
  | b0 :: b1 :: rest => some (b0 + 256 * b1, rest)
  | _ => none

/-- Is `b` a UTF-8 continuation byte (0x80..0xBF)? -/
def utf8_cont (b : Nat) : Bool := decide (128 ≤ b ∧ b ≤ 191)

/-- Standard UTF-8 validity of a byte string, modelling Python
`bytes.decode("utf-8")` raising `UnicodeDecodeError` on invalid input
(wpk_file.py line 68): 1- to 4-byte forms, with overlong encodings,
surrogates and values above U+10FFFF rejected. -/
def utf8_valid : Bytes → Bool
  | [] => true
  | b :: rest =>
    if b < 128 then utf8_valid rest
    else if 194 ≤ b ∧ b ≤ 223 then
      match rest with
      | c1 :: r => utf8_cont c1 && utf8_valid r
      | [] => false
    else if b = 224 then
      match rest with
      | c1 :: c2 :: r =>
          decide (160 ≤ c1 ∧ c1 ≤ 191) && utf8_cont c2 && utf8_valid r
      | _ => false
    else if (225 ≤ b ∧ b ≤ 236) ∨ b = 238 ∨ b = 239 then
      match rest with
      | c1 :: c2 :: r => utf8_cont c1 && utf8_cont c2 && utf8_valid r
      | _ => false
    else if b = 237 then
      match rest with
      | c1 :: c2 :: r =>
          decide (128 ≤ c1 ∧ c1 ≤ 159) && utf8_cont c2 && utf8_valid r
      | _ => false
    else if b = 240 then
      match rest with
      | c1 :: c2 :: c3 :: r =>
          decide (144 ≤ c1 ∧ c1 ≤ 191) && utf8_cont c2 && utf8_cont c3 &&
            utf8_valid r
      | _ => false
    else if 241 ≤ b ∧ b ≤ 243 then
      match rest with
      | c1 :: c2 :: c3 :: r =>
          utf8_cont c1 && utf8_cont c2 && utf8_cont c3 && utf8_valid r
      | _ => false
    else if b = 244 then
      match rest with
      | c1 :: c2 :: c3 :: r =>
          decide (128 ≤ c1 ∧ c1 ≤ 143) && utf8_cont c2 && utf8_cont c3 &&
            utf8_valid r
      | _ => false
    else false

/-- One pass of the `for _ in range(count)` loop of
`WPKFile._read_indices` (wpk_file.py lines 60-70): offset u32, length
u32, original length u32, compression tag u16 (enum-validated),
encryption tag u16 (enum-validated), name length u16, then `name_length`
bytes decoded as UTF-8.  Like Python `file.read(n)`, the filename read
itself is not length-checked (`List.take`); any structural failure
(short integer read, unknown tag, invalid UTF-8) aborts construction. -/
def read_indices_loop (P : DecodePrimitives) :
    Nat → Bytes → Option (List WPKIndex)
  | 0, _ => some []
  | n + 1, bs => do
    let (off, bs) ← read_uint32 bs
    let (len, bs) ← read_uint32 bs
    let (olen, bs) ← read_uint32 bs
    let (zt, bs) ← read_uint16 bs
    if P.zip_tag_valid zt then
      let (et, bs) ← read_uint16 bs
      if P.encrypt_tag_valid et then
        let (nlen, bs) ← read_uint16 bs
        let name := bs.take nlen
        let bs := bs.drop nlen
        if utf8_valid name then
          let rest ← read_indices_loop P n bs
          some ({ filename := name, file_offset := off, file_length := len,
                  file_original_length := olen, zip_flag := zt,
                  encrypt_flag := et } :: rest)
        else none
      else none
    else none

/-- `WPKFile._read_indices` (wpk_file.py lines 57-70): one u32 count,
then `count` records.  Trailing bytes are ignored and no signature check
of any kind is performed. -/
def read_indices (P : DecodePrimitives) (bs : Bytes) :
    Option (List WPKIndex) := do
  let (count, bs) ← read_uint32 bs
  read_indices_loop P count bs

/-- `WPKFile` state (wpk_file.py lines 29-49): paths, options, the entry
cache (a Python dict, modelled as a first-match association list) and
the index table.  `decode_calls` is instrumentation counting executions
of the decode pipeline (the spec's "call-counting stub of the decode
primitives"), and `log` records the leveled messages sent to the
external logging collaborator. -/
structure WPKFile where
  idx_path : Bytes := []
  wpk_path : Bytes := []
  options : WPKReadOptions := {}
  entries : List (Int × WPKEntry) := []
  indices : List WPKIndex := []
  decode_calls : Nat := 0
  log : List LogMsg := []
deriving DecidableEq

/-- Python `p.rfind(c)` over a byte string: index of the last occurrence
of `c`, `-1` when absent. -/
def rfind (p : Bytes) (c : Nat) : Int :=
  match p.reverse.findIdx? (fun b => b == c) with
  | some j => (p.length : Int) - 1 - j
  | none => -1

/-- `os.path.splitext(p)[0]` (posixpath): cut at the last dot that lies
after the last slash, unless every byte of the basename up to that dot
is itself a dot (leading dots are not an extension). -/
def splitext_root (p : Bytes) : Bytes :=
  let sepIdx := rfind p 47
  let dotIdx := rfind p 46
  if sepIdx < dotIdx then
    if ((p.drop (sepIdx + 1).toNat).take (dotIdx - sepIdx - 1).toNat).any
        (fun b => b != 46) then
      p.take dotIdx.toNat
    else p
  else p

/-- `WPKFile.__init__` (wpk_file.py lines 32-49): store the paths (the
data path defaults to the index path with its extension replaced by
".wpk"), store the options (default `WPKReadOptions()`), log at info
level, then eagerly parse the index file; a structural parse failure is
a fatal open error (`none`).  `idx_bytes` is the content of the index
file at `idx_path`. -/
def wpk_open (P : DecodePrimitives) (idx_path : Bytes)
    (wpk_path : Option Bytes) (options : Option WPKReadOptions)
    (idx_bytes : Bytes) : Option WPKFile :=
  (read_indices P idx_bytes).map fun inds =>
    { idx_path := idx_path,
      wpk_path := wpk_path.getD (splitext_root idx_path ++ [46, 119, 112, 107]),
      options := options.getD {},
      entries := [],
      indices := inds,
      decode_calls := 0,
      log := [(LogLevel.info, "Opening WPK index: %s")] }

/-- Lookup in the entry cache (Python `index in self.entries` /
`self.entries[index]`). -/
def lookup_entry : List (Int × WPKEntry) → Int → Option WPKEntry
  | [], _ => none
  | (k, e) :: rest, i => if k = i then some e else lookup_entry rest i

/-- `WPKFile.is_entry_loaded` (wpk_file.py lines 72-74). -/
def is_entry_loaded (f : WPKFile) (index : Int) : Bool :=
  (lookup_entry f.entries index).isSome

/-- Stage 1, raw slice (wpk_file.py lines 102-103):
`file.seek(entry.file_offset); entry.data = file.read(entry.file_length)`.
Python `read` returns whatever is available, so a slice extending past
the end of the data file is silently truncated. -/
def raw_slice (wpk_data : Bytes) (entry : WPKEntry) : WPKEntry :=
  { entry with
    data := (wpk_data.drop entry.file_offset).take entry.file_length }

/-- Stage 2, decryption (wpk_file.py lines 105-106): when the encryption
tag is non-NONE the working bytes are replaced by the decrypt
primitive's output; a decrypt failure (raised exception) is not caught
here and propagates. -/
def decrypt_stage (P : DecodePrimitives) (opts : WPKReadOptions)
    (entry : WPKEntry) : Except String WPKEntry :=
  if entry.encrypt_flag ≠ 0 then
    match P.decrypt_entry entry opts.decryption_key with
    | some d => .ok { entry with data := d }
    | none => .error "decrypt_entry failed"
  else .ok entry

/-- The branch condition of wpk_file.py line 112:
`self.options.decryption_key is not None and self.options.decryption_key != 0`. -/
def key_nonzero (opts : WPKReadOptions) : Bool :=
  match opts.decryption_key with
  | some k => if k = 0 then false else true
  | none => false

/-- Stages 4-6 (wpk_file.py lines 123-136): rotor sniff/unpack, nxs3
sniff/unpack, binary/text heuristic, then the extension from the final
bytes and accumulated flags, and the category from that extension. -/
def secondary_and_classify (P : DecodePrimitives) (e0 : WPKEntry) :
    WPKEntry :=
  let e1 := if P.check_rotor e0 then
      { e0 with data_flags := { e0.data_flags with rotor_packed := true },
                data := P.unpack_rotor e0.data }
    else e0
  let e2 := if P.check_nxs3 e1 then
      { e1 with data_flags := { e1.data_flags with nxs3_packed := true },
                data := P.unpack_nxs3 e1.data }
    else e1
  let e3 := if ¬ P.is_binary e2.data then
      { e2 with data_flags := { e2.data_flags with text := true } }
    else e2
  let ext := P.get_ext e3.data e3.data_flags
  { e3 with extension := ext, category := P.get_file_category ext }

/-- `WPKFile._load_entry_data` (wpk_file.py lines 100-136): raw slice,
optional decryption (uncaught on failure), optional primary
decompression with the try/except flag policy of lines 108-121 (on
failure, set exactly ENCRYPTED and log at error level when a non-zero
key is configured, else set exactly ERROR and log at critical level,
then return at once, skipping stages 4-6), then secondary layers and
classification followed by a debug log.  Returns the updated entry
together with the messages logged. -/
def load_entry_data (P : DecodePrimitives) (opts : WPKReadOptions)
    (wpk_data : Bytes) (entry : WPKEntry) :
    Except String (WPKEntry × List LogMsg) := do
  let e1 := raw_slice wpk_data entry
  let e2 ← decrypt_stage P opts e1
  if e2.zip_flag ≠ 0 then
    match P.decompress_entry e2 with
    | some d =>
        let e3 := secondary_and_classify P { e2 with data := d }
        .ok (e3, [(LogLevel.debug, "Entry %s: %s")])
    | none =>
        if key_nonzero opts then
          .ok ({ e2 with data_flags := { e2.data_flags with encrypted := true } },
               [(LogLevel.error, "Error decompressing file; check decryption key")])
        else
          .ok ({ e2 with data_flags := { e2.data_flags with error := true } },
               [(LogLevel.critical,
                 "Error decompressing the file using %s compression")])
  else
    let e3 := secondary_and_classify P e2
    .ok (e3, [(LogLevel.debug, "Entry %s: %s")])

/-- The per-ordinal decode of `WPKFile.read_entry` once the cache misses
and the ordinal is in range (wpk_file.py lines 87-95): copy the index
record onto a fresh entry, run the pipeline, then append a non-empty
derived extension as a dotted suffix to the entry's filename. -/
def resolve_index (P : DecodePrimitives) (opts : WPKReadOptions)
    (wpk_data : Bytes) (idx : WPKIndex) :
    Except String (WPKEntry × List LogMsg) :=
  match load_entry_data P opts wpk_data (WPKEntry.ofIndex idx) with
  | .error m => .error m
  | .ok (e, logs) =>
      .ok ((if e.extension ≠ [] then
              { e with filename := e.filename ++ 46 :: e.extension }
            else e), logs)

/-- The out-of-range placeholder of wpk_file.py lines 81-85: a fresh
`WPKEntry()` with only the ERROR bit set. -/
def fresh_error_entry : WPKEntry :=
  { data_flags := { error := true } }

/-- `WPKFile.read_entry` (wpk_file.py lines 76-98): serve from the cache
when present; an out-of-range ordinal logs critical and returns an
ERROR placeholder without touching the data file or the cache;
otherwise run the decode pipeline on the indexed record, cache the
result under the ordinal and return it.  `wpk_data` is the content of
the data file at `wpk_path` (opened per call, no persistent handle). -/
def read_entry (P : DecodePrimitives) (wpk_data : Bytes) (f : WPKFile)
    (index : Int) : Except String (WPKEntry × WPKFile) :=
  match lookup_entry f.entries index with
  | some e => .ok (e, f)
  | none =>
    if 0 ≤ index ∧ index < (f.indices.length : Int) then
      match resolve_index P f.options wpk_data
          ((f.indices.get? index.toNat).getD {}) with
      | .error m => .error m
      | .ok (e, logs) =>
          .ok (e, { f with entries := (index, e) :: f.entries,
                           decode_calls := f.decode_calls + 1,
                           log := f.log ++ logs })
    else
      .ok (fresh_error_entry,
           { f with log := f.log ++
               [(LogLevel.critical, "Entry index out of range: %d")] })

/-- Filesystem effects of extraction: the directory arguments passed to
`os.makedirs` and the `(path, bytes)` writes, in order. -/
structure FS where
  dirs : List Bytes := []
  files : List (Bytes × Bytes) := []
deriving DecidableEq

/-- `os.path.dirname` (posixpath): the part of the path up to the last
slash, trailing slashes stripped unless the head consists of slashes
only. -/
def dirname (p : Bytes) : Bytes :=
  let head := p.take (rfind p 47 + 1).toNat
  if head ≠ [] ∧ head.any (fun b => b != 47) then
    (head.reverse.dropWhile (fun b => b == 47)).reverse
  else head

/-- `os.path.join(a, b)` (posixpath, two arguments). -/
def path_join (a b : Bytes) : Bytes :=
  if b.head? = some 47 then b
  else if a = [] ∨ a.getLast? = some 47 then a ++ b
  else a ++ 47 :: b

/-- `WPKEntry.save_to_file` (class_types.py lines 84-88):
`os.makedirs(os.path.dirname(path), exist_ok=True)` then write the
entry's bytes at `path`. -/
def save_to_file (fs : FS) (path : Bytes) (data : Bytes) : FS :=
  { dirs := fs.dirs ++ [dirname path], files := fs.files ++ [(path, data)] }

/-- The `for i in range(len(self.indices))` loop of
`WPKFile.extract_all` (wpk_file.py lines 140-143) with `n` iterations
left and `i` the next ordinal: resolve via `read_entry`, join the
output directory with the resolved filename, save. -/
def extract_loop (P : DecodePrimitives) (wpk_data out_dir : Bytes) :
    WPKFile → FS → Nat → Nat → Except String (WPKFile × FS)
  | f, fs, _, 0 => .ok (f, fs)
  | f, fs, i, n + 1 =>
    match read_entry P wpk_data f (i : Int) with
    | .error m => .error m
    | .ok (e, f') =>
        extract_loop P wpk_data out_dir f'
          (save_to_file fs (path_join out_dir e.filename) e.data) (i + 1) n

/-- `WPKFile.extract_all` (wpk_file.py lines 138-143). -/
def extract_all (P : DecodePrimitives) (wpk_data : Bytes) (f : WPKFile)
    (out_dir : Bytes) (fs : FS) : Except String (WPKFile × FS) :=
  extract_loop P wpk_data out_dir f fs 0 f.indices.length

/-- `IDX_SIGNATURE = b"IDX\x00"` (detection.py line 12). -/
def IDX_SIGNATURE : Bytes := [73, 68, 88, 0]

/-- `WPK_SIGNATURE = b"WPK\x00"` (detection.py line 15). -/
def WPK_SIGNATURE : Bytes := [87, 80, 75, 0]

/-- `is_idx_signature` (detection.py lines 18-27): length check plus
`startswith`, together `IDX_SIGNATURE.isPrefixOf data`. -/
def is_idx_signature (data : Bytes) : Bool := IDX_SIGNATURE.isPrefixOf data

/-- `is_wpk_signature` (detection.py lines 29-38). -/
def is_wpk_signature (data : Bytes) : Bool := WPK_SIGNATURE.isPrefixOf data

/-- Result of format sniffing (`"idx"` / `"wpk"` strings in the
source). -/
inductive FileType where
  | idx | wpk
deriving DecidableEq

/-- `detect_file_type` (detection.py lines 40-57) applied to the probed
file's content: read the first
`max(len(IDX_SIGNATURE), len(WPK_SIGNATURE)) = 4` bytes and classify,
`none` when neither magic matches (including short files). -/
def detect_file_type (content : Bytes) : Option FileType :=
  let header := content.take 4
  if is_idx_signature header then some FileType.idx
  else if is_wpk_signature header then some FileType.wpk
  else none

/-- The IDX/WPK pairing policy of `parse_args` (args.py lines 39-49),
with the filesystem abstracted as `fsread : path → content` (the real
`detect_file_type` opens its path argument and sniffs the content).
Returns the `(idx_path, wpk_path)` pair handed to `WPKFile`.  An empty
second path is falsy in Python (`elif wpk_path and ...`), hence the
emptiness test in the third branch. -/
def pair_paths (fsread : Bytes → Bytes) (path : Bytes)
    (wpk_path : Option Bytes) : Bytes × Option Bytes :=
  let detected := detect_file_type (fsread path)
  if detected = some FileType.wpk then
    (splitext_root path ++ [46, 105, 100, 120], some path)
  else if detected = some FileType.idx ∧ wpk_path = none then
    (path, some (splitext_root path ++ [46, 119, 112, 107]))
  else
    match wpk_path with
    | some q =>
        if q ≠ [] ∧ detect_file_type (fsread q) = some FileType.idx then
          (q, some path)
        else (path, wpk_path)
    | none => (path, wpk_path)

/-- The entry that ordinal `i` of a fresh container resolves to, as a
stateless function of the index table (spec-side description used by the
extraction theorem): the pipeline run once on the `i`-th record. -/
def resolved_at (P : DecodePrimitives) (opts : WPKReadOptions)
    (wpk_data : Bytes) (idxs : List WPKIndex) (i : Nat) :
    Option WPKEntry :=
  (idxs.get? i).bind fun idx =>
    (resolve_index P opts wpk_data idx).toOption.map Prod.fst

/-- The resolved filename at ordinal `i` (empty when unresolvable). -/
def resolved_name_at (P : DecodePrimitives) (opts : WPKReadOptions)
    (wpk_data : Bytes) (idxs : List WPKIndex) (i : Nat) : Bytes :=
  match resolved_at P opts wpk_data idxs i with
  | some e => e.filename
  | none => []

/-- The `(path, bytes)` pair that extraction writes for ordinal `i`. -/
def extracted_file (P : DecodePrimitives) (opts : WPKReadOptions)
    (wpk_data out_dir : Bytes) (idxs : List WPKIndex) (i : Nat) :
    Bytes × Bytes :=
  match resolved_at P opts wpk_data idxs i with
  | some e => (path_join out_dir e.filename, e.data)
  | none => ([], [])

/-! Concrete instantiations used by the witness theorems. -/

/-- Concrete decode primitives whose decompressor always rejects (models
a corrupt compressed stream); every other collaborator is trivial. -/
def prims_decompress_fail : DecodePrimitives :=
  { zip_tag_valid := fun _ => true,
    encrypt_tag_valid := fun _ => true,
    decrypt_entry := fun e _ => some e.data,
    decompress_entry := fun _ => none,
    check_rotor := fun _ => false,
    unpack_rotor := id,
    check_nxs3 := fun _ => false,
    unpack_nxs3 := id,
    is_binary := fun _ => true,
    get_ext := fun _ _ => [],
    get_file_category := fun _ => .OTHER }

/-- Concrete decode primitives whose decrypter always rejects (models a
bad key raising inside `decrypt_entry`). -/
def prims_decrypt_fail : DecodePrimitives :=
  { prims_decompress_fail with decrypt_entry := fun _ _ => none }

/-- Concrete decode primitives where every stage succeeds and is the
identity on the bytes. -/
def prims_plain : DecodePrimitives :=
  { prims_decompress_fail with decompress_entry := fun e => some e.data }

/-- Concrete decode primitives deriving the extension "p" for every
payload. -/
def prims_ext : DecodePrimitives :=
  { prims_plain with get_ext := fun _ _ => [112] }

/-- A record tagged compressed (tag 1), 5 payload bytes at offset 0,
named "a". -/
def sample_idx_zip : WPKIndex := { filename := [97], file_length := 5, zip_flag := 1 }

/-- A record tagged encrypted (tag 1), 5 payload bytes at offset 0. -/
def sample_idx_enc : WPKIndex := { filename := [97], file_length := 5, encrypt_flag := 1 }

/-- A plain record asking for 10 bytes at offset 0 (more than the sample
data file holds). -/
def sample_idx_short : WPKIndex := { filename := [97], file_length := 10 }

/-- A plain uncompressed, unencrypted 5-byte record named "a". -/
def sample_idx_plain : WPKIndex := { filename := [97], file_length := 5 }

/-- Container over the compressed record with a non-zero key
configured. -/
def sample_file_zip_key : WPKFile :=
  { options := { decryption_key := some 7 }, indices := [sample_idx_zip] }

/-- Container over the encrypted record, no key configured. -/
def sample_file_enc : WPKFile := { indices := [sample_idx_enc] }

/-- Container over the short-slice record. -/
def sample_file_short : WPKFile := { indices := [sample_idx_short] }

/-- Container over two plain records named "a" and "b". -/
def sample_file_two : WPKFile :=
  { indices := [sample_idx_plain, { filename := [98], file_length := 3 }] }

/-- Five bytes of sample data-file content. -/
def sample_wpk_data : Bytes := [1, 2, 3, 4, 5]

/-- A two-file sample filesystem for the pairing witness: "a.wpk" holds
the WPK magic, "b.idx" holds the IDX magic, anything else is empty. -/
def sample_fs : Bytes → Bytes := fun path =>
  if path = [97, 46, 119, 112, 107] then WPK_SIGNATURE
  else if path = [98, 46, 105, 100, 120] then IDX_SIGNATURE
  else []

/-! Helper lemmas. -/

/-- A successful decryption stage only replaces the working bytes: every
other field of the entry is preserved. -/
theorem decrypt_stage_shape (P : DecodePrimitives) (opts : WPKReadOptions)
    (e e' : WPKEntry) (h : decrypt_stage P opts e = .ok e') :
    e' = { e with data := e'.data } := by
  unfold decrypt_stage at h
  split at h
  · split at h
    · injection h with h
      subst h
      rfl
    · exact Except.noConfusion h
  · injection h with h
    subst h
    rfl

/-- Unfolding `read_entry` on a cache miss at an in-range ordinal. -/
theorem read_entry_miss (P : DecodePrimitives) (wpk_data : Bytes)
    (f : WPKFile) (i : Int) (idx : WPKIndex)
    (hcache : lookup_entry f.entries i = none)
    (hrange : 0 ≤ i ∧ i < (f.indices.length : Int))
    (hget : f.indices.get? i.toNat = some idx) :
    read_entry P wpk_data f i =
      match resolve_index P f.options wpk_data idx with
      | .error m => .error m
      | .ok (e, logs) =>
          .ok (e, { f with entries := (i, e) :: f.entries,
                           decode_calls := f.decode_calls + 1,
                           log := f.log ++ logs }) := by
  unfold read_entry
  rw [hcache]
  rw [if_pos hrange, hget]
  rfl

/-- Unfolding `load_entry_data` when decompression is demanded and
rejects the bytes: the flag policy of wpk_file.py lines 111-121. -/
theorem load_entry_data_decompress_fail (P : DecodePrimitives)
    (opts : WPKReadOptions) (wpk_data : Bytes) (entry e2 : WPKEntry)
    (hpre : decrypt_stage P opts (raw_slice wpk_data entry) = .ok e2)
    (hzip : e2.zip_flag ≠ 0) (hfail : P.decompress_entry e2 = none) :
    load_entry_data P opts wpk_data entry =
      if key_nonzero opts then
        .ok ({ e2 with data_flags := { e2.data_flags with encrypted := true } },
             [(LogLevel.error, "Error decompressing file; check decryption key")])
      else
        .ok ({ e2 with data_flags := { e2.data_flags with error := true } },
             [(LogLevel.critical,
               "Error decompressing the file using %s compression")]) := by
  unfold load_entry_data
  simp only [bind, Except.bind, hpre, hfail, if_pos hzip]

/-- C1: for every valid ordinal whose record carries a non-NONE
compression tag (and the pristine flags every parsed record has), if the
decompression primitive rejects the bytes then: with a configured
non-zero key exactly ENCRYPTED is set (ERROR clear) and an error-level
message is logged; with no key or key zero exactly ERROR is set
(ENCRYPTED clear) and a critical-level message is logged; in both cases
the pipeline aborts at once, so the secondary layers and classification
never run (extension and category keep their defaults, no
TEXT/ROTOR/NXS3 bit appears) and the content stays `e2.data`, the bytes
produced before the decompression stage. -/
theorem decompress_failure_flag_policy
    (P : DecodePrimitives) (wpk_data : Bytes) (f : WPKFile) (i : Int)
    (idx : WPKIndex) (e2 : WPKEntry)
    (hcache : lookup_entry f.entries i = none)
    (hrange : 0 ≤ i ∧ i < (f.indices.length : Int))
    (hget : f.indices.get? i.toNat = some idx)
    (hflags : idx.data_flags = WPKEntryDataFlags.NONE)
    (hzip : idx.zip_flag ≠ 0)
    (hpre : decrypt_stage P f.options (raw_slice wpk_data (WPKEntry.ofIndex idx)) =
      .ok e2)
    (hfail : P.decompress_entry e2 = none) :
    read_entry P wpk_data f i =
      .ok ({ e2 with data_flags :=
               (if key_nonzero f.options then { encrypted := true }
                else { error := true }) },
           { f with
             entries := (i, { e2 with data_flags :=
                 (if key_nonzero f.options then { encrypted := true }
                  else { error := true }) }) :: f.entries,
             decode_calls := f.decode_calls + 1,
             log := f.log ++
               [if key_nonzero f.options then
                  (LogLevel.error, "Error decompressing file; check decryption key")
                else
                  (LogLevel.critical,
                   "Error decompressing the file using %s compression")] }) ∧
      e2.data_flags = WPKEntryDataFlags.NONE ∧
      e2.extension = [] ∧
      e2.category = NPKEntryFileCategories.OTHER := by
  have hshape := decrypt_stage_shape P f.options _ e2 hpre
  have hz : e2.zip_flag = idx.zip_flag := by
    rw [hshape]; simp [raw_slice, WPKEntry.ofIndex]
  have hfl : e2.data_flags = idx.data_flags := by
    rw [hshape]; simp [raw_slice, WPKEntry.ofIndex]
  have hext : e2.extension = [] := by
    rw [hshape]; simp [raw_slice, WPKEntry.ofIndex]
  have hcat : e2.category = NPKEntryFileCategories.OTHER := by
    rw [hshape]; simp [raw_slice, WPKEntry.ofIndex]
  refine ⟨?_, hfl.trans hflags, hext, hcat⟩
  rw [read_entry_miss P wpk_data f i idx hcache hrange hget]
  unfold resolve_index
  rw [load_entry_data_decompress_fail P f.options wpk_data _ e2 hpre
    (by rw [hz]; exact hzip) hfail]
  by_cases hk : key_nonzero f.options
  · simp [if_pos hk, hext, hfl, hflags, WPKEntryDataFlags.NONE]
  · simp [if_neg hk, hext, hfl, hflags, WPKEntryDataFlags.NONE]

/-- Witness for C1 at a concrete archive: compressed record, corrupt
stream, key 7 configured — the result carries exactly the ENCRYPTED
flag and the pre-decompression bytes. -/
theorem decompress_failure_flag_policy_witness :
    (read_entry prims_decompress_fail sample_wpk_data sample_file_zip_key 0).toOption.map
        (fun p => (p.1.data_flags, p.1.data, p.1.extension)) =
      some ({ encrypted := true }, [1, 2, 3, 4, 5], []) := by
  have h := decompress_failure_flag_policy prims_decompress_fail sample_wpk_data
      sample_file_zip_key 0 sample_idx_zip
      (raw_slice sample_wpk_data (WPKEntry.ofIndex sample_idx_zip))
      rfl (by decide) rfl rfl (by decide) rfl rfl
  rw [h.1]
  rfl

/-- C5: for every ordinal outside `[0, count)` on which the cache has no
entry, `read_entry` does not read the data file (the result is the same
for every data-file content), does not populate the cache (the entries
field is unchanged, so `is_entry_loaded` stays false), logs one
critical-level diagnostic, and returns a fresh entry with ERROR set and
every other field at its default. -/
theorem invalid_ordinal_read_entry
    (P : DecodePrimitives) (f : WPKFile) (i : Int)
    (hcache : lookup_entry f.entries i = none)
    (hrange : ¬ (0 ≤ i ∧ i < (f.indices.length : Int))) :
    (∀ wpk_data wpk_data' : Bytes,
        read_entry P wpk_data f i = read_entry P wpk_data' f i) ∧
    ∀ wpk_data : Bytes,
      read_entry P wpk_data f i =
        .ok (fresh_error_entry,
             { f with log := f.log ++
                 [(LogLevel.critical, "Entry index out of range: %d")] }) ∧
      (read_entry P wpk_data f i).toOption.map
          (fun p => p.2.entries) = some f.entries ∧
      (read_entry P wpk_data f i).toOption.map
          (fun p => is_entry_loaded p.2 i) = some false ∧
      (read_entry P wpk_data f i).toOption.map
          (fun p => p.2.decode_calls) = some f.decode_calls := by
  have key : ∀ wpk_data : Bytes,
      read_entry P wpk_data f i =
        .ok (fresh_error_entry,
             { f with log := f.log ++
                 [(LogLevel.critical, "Entry index out of range: %d")] }) := by
    intro wpk_data
    unfold read_entry
    rw [hcache]
    rw [if_neg hrange]
  refine ⟨fun d d' => (key d).trans (key d').symm, fun d => ⟨key d, ?_, ?_, ?_⟩⟩
  · rw [key d]; rfl
  · rw [key d]
    show some (lookup_entry f.entries i).isSome = some false
    rw [hcache]
    rfl
  · rw [key d]; rfl

/-- Witness for C5: ordinal 5 of a one-record archive yields the ERROR
placeholder and leaves the cache empty. -/
theorem invalid_ordinal_read_entry_witness :
    read_entry prims_plain sample_wpk_data sample_file_zip_key 5 =
      .ok (fresh_error_entry,
           { sample_file_zip_key with log :=
               [(LogLevel.critical, "Entry index out of range: %d")] }) ∧
    is_entry_loaded sample_file_zip_key 5 = false := by
  have h := invalid_ordinal_read_entry prims_plain sample_file_zip_key 5
      rfl (by decide)
  refine ⟨(h.2 sample_wpk_data).1.trans ?_, rfl⟩
  rfl

/-- A cache hit returns the cached entry and leaves the state alone
(wpk_file.py lines 78-79). -/
theorem read_entry_hit (P : DecodePrimitives) (wpk_data : Bytes)
    (f : WPKFile) (i : Int) (e : WPKEntry)
    (h : lookup_entry f.entries i = some e) :
    read_entry P wpk_data f i = .ok (e, f) := by
  unfold read_entry
  rw [h]

/-- A successful cache-miss resolution caches the returned entry under
the ordinal, bumps the decode counter once and appends the logs:
the state after `read_entry` is determined. -/
theorem read_entry_success_state (P : DecodePrimitives) (wpk_data : Bytes)
    (f : WPKFile) (i : Int) (e : WPKEntry) (f' : WPKFile)
    (hcache : lookup_entry f.entries i = none)
    (hrange : 0 ≤ i ∧ i < (f.indices.length : Int))
    (hfirst : read_entry P wpk_data f i = .ok (e, f')) :
    ∃ logs, f' = { f with entries := (i, e) :: f.entries,
                          decode_calls := f.decode_calls + 1,
                          log := f.log ++ logs } := by
  have hlt : i.toNat < f.indices.length := by omega
  have hget : f.indices.get? i.toNat = some (f.indices.get ⟨i.toNat, hlt⟩) :=
    List.get?_eq_get hlt
  rw [read_entry_miss P wpk_data f i _ hcache hrange hget] at hfirst
  cases hres : resolve_index P f.options wpk_data (f.indices.get ⟨i.toNat, hlt⟩) with
  | error m =>
      rw [hres] at hfirst
      exact absurd hfirst (by simp)
  | ok pr =>
      rw [hres] at hfirst
      obtain ⟨e0, logs⟩ := pr
      simp only [Except.ok.injEq, Prod.mk.injEq] at hfirst
      obtain ⟨he, hf'⟩ := hfirst
      subst he
      exact ⟨logs, hf'.symm⟩

/-- C4: for every ordinal in `[0, count)` not yet cached, if the first
`read_entry` returns `(e, f')` then calling it again on `f'` returns the
bitwise-identical entry and the identical state (so only the cache is
consulted), and the decode pipeline ran exactly once, on the first call
(the instrumentation counter is bumped exactly once across both
calls). -/
theorem resolve_idempotent_once
    (P : DecodePrimitives) (wpk_data : Bytes) (f : WPKFile) (i : Int)
    (e : WPKEntry) (f' : WPKFile)
    (hcache : lookup_entry f.entries i = none)
    (hrange : 0 ≤ i ∧ i < (f.indices.length : Int))
    (hfirst : read_entry P wpk_data f i = .ok (e, f')) :
    read_entry P wpk_data f' i = .ok (e, f') ∧
    f'.decode_calls = f.decode_calls + 1 := by
  obtain ⟨logs, hf'⟩ :=
    read_entry_success_state P wpk_data f i e f' hcache hrange hfirst
  constructor
  · refine read_entry_hit P wpk_data f' i e ?_
    rw [hf']
    simp [lookup_entry]
  · rw [hf']

/-- Witness for C4 on a concrete archive: the second resolution of
ordinal 0 returns the same pair and the counter reads 1. -/
theorem resolve_idempotent_once_witness :
    (match read_entry prims_plain sample_wpk_data sample_file_two 0 with
     | .ok (e, f') =>
         read_entry prims_plain sample_wpk_data f' 0 = .ok (e, f') ∧
         f'.decode_calls = sample_file_two.decode_calls + 1
     | .error _ => False) := by
  cases hfirst : read_entry prims_plain sample_wpk_data sample_file_two 0 with
  | error m =>
      have hok : (read_entry prims_plain sample_wpk_data sample_file_two 0).isOk = true := by
        decide
      rw [hfirst] at hok
      exact Bool.noConfusion hok
  | ok pr =>
      obtain ⟨e, f'⟩ := pr
      exact resolve_idempotent_once prims_plain sample_wpk_data sample_file_two 0
        e f' rfl (by decide) hfirst

/-- C9: when the decode of a valid, uncached ordinal fails with ERROR or
ENCRYPTED (the decompression-failure outcomes), the failed entry is
cached exactly like a success: `is_entry_loaded` is true afterwards, a
subsequent `read_entry` returns the cached failed entry with an
unchanged state, and the decode pipeline ran only on the first call. -/
theorem failed_entry_cached
    (P : DecodePrimitives) (wpk_data : Bytes) (f : WPKFile) (i : Int)
    (e : WPKEntry) (f' : WPKFile)
    (hcache : lookup_entry f.entries i = none)
    (hrange : 0 ≤ i ∧ i < (f.indices.length : Int))
    (hfirst : read_entry P wpk_data f i = .ok (e, f'))
    (hfail : e.data_flags.error = true ∨ e.data_flags.encrypted = true) :
    is_entry_loaded f' i = true ∧
    read_entry P wpk_data f' i = .ok (e, f') ∧
    f'.decode_calls = f.decode_calls + 1 := by
  obtain ⟨logs, hf'⟩ :=
    read_entry_success_state P wpk_data f i e f' hcache hrange hfirst
  refine ⟨?_, ?_, ?_⟩
  · rw [hf']
    simp [is_entry_loaded, lookup_entry]
  · refine read_entry_hit P wpk_data f' i e ?_
    rw [hf']
    simp [lookup_entry]
  · rw [hf']

/-- Witness for C9: the corrupt compressed record (key configured) fails
with ENCRYPTED, yet is cached and served from the cache afterwards. -/
theorem failed_entry_cached_witness :
    (match read_entry prims_decompress_fail sample_wpk_data sample_file_zip_key 0 with
     | .ok (e, f') =>
         is_entry_loaded f' 0 = true ∧
         read_entry prims_decompress_fail sample_wpk_data f' 0 = .ok (e, f') ∧
         f'.decode_calls = sample_file_zip_key.decode_calls + 1
     | .error _ => False) := by
  cases hres : read_entry prims_decompress_fail sample_wpk_data sample_file_zip_key 0 with
  | error m =>
      have hok : (read_entry prims_decompress_fail sample_wpk_data
          sample_file_zip_key 0).isOk = true := by decide
      rw [hres] at hok
      exact Bool.noConfusion hok
  | ok pr =>
      obtain ⟨e, f'⟩ := pr
      have henc : (read_entry prims_decompress_fail sample_wpk_data
          sample_file_zip_key 0).toOption.map
            (fun p => p.1.data_flags.encrypted) = some true := by decide
      rw [hres] at henc
      simp only [Except.toOption, Option.map, Option.some.injEq] at henc
      exact failed_entry_cached prims_decompress_fail sample_wpk_data
        sample_file_zip_key 0 e f' rfl (by decide) hres (Or.inr henc)

/-- The secondary layers and classification never touch the filename. -/
theorem secondary_and_classify_filename (P : DecodePrimitives) (e : WPKEntry) :
    (secondary_and_classify P e).filename = e.filename := by
  unfold secondary_and_classify
  dsimp only
  split <;> split <;> split <;> rfl

/-- The whole decode pipeline never touches the filename. -/
theorem load_entry_data_filename (P : DecodePrimitives) (opts : WPKReadOptions)
    (wpk_data : Bytes) (entry e0 : WPKEntry) (logs : List LogMsg)
    (h : load_entry_data P opts wpk_data entry = .ok (e0, logs)) :
    e0.filename = entry.filename := by
  unfold load_entry_data at h
  cases hd : decrypt_stage P opts (raw_slice wpk_data entry) with
  | error m =>
      simp only [bind, Except.bind, hd] at h
      exact Except.noConfusion h
  | ok e2 =>
      have hfn : e2.filename = entry.filename := by
        rw [decrypt_stage_shape P opts _ e2 hd]
        simp [raw_slice]
      simp only [bind, Except.bind, hd] at h
      split at h
      · cases hdec : P.decompress_entry e2 with
        | some d =>
            simp only [hdec] at h
            simp only [Except.ok.injEq, Prod.mk.injEq] at h
            rw [← h.1, secondary_and_classify_filename]
            exact hfn
        | none =>
            simp only [hdec] at h
            split at h <;>
              (simp only [Except.ok.injEq, Prod.mk.injEq] at h
               rw [← h.1]
               exact hfn)
      · simp only [Except.ok.injEq, Prod.mk.injEq] at h
        rw [← h.1, secondary_and_classify_filename]
        exact hfn

/-- C8: when the pipeline derives a non-empty extension for a valid,
uncached ordinal, the extension is appended to the resolved entry's
filename as a dotted suffix (and, since the pipeline never renames, the
result is the index record's filename plus the suffix); the mutation is
confined to the in-memory resolved entry: the index table of the
resulting state is exactly the index table before, so the record's
filename and every other field are unchanged. -/
theorem extension_rename_frame
    (P : DecodePrimitives) (wpk_data : Bytes) (f : WPKFile) (i : Int)
    (idx : WPKIndex) (e0 : WPKEntry) (logs : List LogMsg)
    (hcache : lookup_entry f.entries i = none)
    (hrange : 0 ≤ i ∧ i < (f.indices.length : Int))
    (hget : f.indices.get? i.toNat = some idx)
    (hload : load_entry_data P f.options wpk_data (WPKEntry.ofIndex idx) =
      .ok (e0, logs))
    (hext : e0.extension ≠ []) :
    read_entry P wpk_data f i =
      .ok ({ e0 with filename := e0.filename ++ 46 :: e0.extension },
           { f with
             entries := (i, { e0 with
               filename := e0.filename ++ 46 :: e0.extension }) :: f.entries,
             decode_calls := f.decode_calls + 1,
             log := f.log ++ logs }) ∧
    e0.filename = idx.filename ∧
    ({ f with
       entries := (i, { e0 with
         filename := e0.filename ++ 46 :: e0.extension }) :: f.entries,
       decode_calls := f.decode_calls + 1,
       log := f.log ++ logs } : WPKFile).indices = f.indices := by
  have hfn : e0.filename = idx.filename := by
    rw [load_entry_data_filename P f.options wpk_data _ e0 logs hload]
    rfl
  refine ⟨?_, hfn, rfl⟩
  rw [read_entry_miss P wpk_data f i idx hcache hrange hget]
  unfold resolve_index
  simp only [hload]
  rw [if_pos hext]

/-- Witness for C8: with an extension-deriving classifier, the plain
record "a" resolves to filename "a.p" while the index table still holds
"a". -/
theorem extension_rename_frame_witness :
    (read_entry prims_ext sample_wpk_data sample_file_two 0).toOption.map
        (fun p => (p.1.filename, p.2.indices)) =
      some ([97, 46, 112], sample_file_two.indices) := by
  cases hload : load_entry_data prims_ext sample_file_two.options sample_wpk_data
      (WPKEntry.ofIndex sample_idx_plain) with
  | error m =>
      have hok : (load_entry_data prims_ext sample_file_two.options sample_wpk_data
          (WPKEntry.ofIndex sample_idx_plain)).isOk = true := by decide
      rw [hload] at hok
      exact Bool.noConfusion hok
  | ok pr =>
      obtain ⟨e0, logs⟩ := pr
      have hext : e0.extension = [112] := by
        have hx : (load_entry_data prims_ext sample_file_two.options sample_wpk_data
            (WPKEntry.ofIndex sample_idx_plain)).toOption.map
              (fun p => p.1.extension) = some [112] := by decide
        rw [hload] at hx
        simp only [Except.toOption, Option.map, Option.some.injEq] at hx
        exact hx
      have h := extension_rename_frame prims_ext sample_wpk_data sample_file_two 0
        sample_idx_plain e0 logs rfl (by decide) rfl hload
        (by rw [hext]; exact (by decide))
      rw [h.1]
      show some ((e0.filename ++ 46 :: e0.extension, sample_file_two.indices) :
          Bytes × List WPKIndex) =
        some ([97, 46, 112], sample_file_two.indices)
      rw [h.2.1, hext]
      rfl

/-- Cache lookups ignore entries stored under a different ordinal. -/
theorem lookup_entry_cons_ne (k : Int) (e : WPKEntry)
    (rest : List (Int × WPKEntry)) (j : Int) (h : k ≠ j) :
    lookup_entry ((k, e) :: rest) j = lookup_entry rest j := by
  simp [lookup_entry, h]

/-- C2 counterexample: the source wraps only `decompress_entry` in
try/except, so with a decrypter that rejects (the spec's decrypt
contract is fallible) `read_entry` on an encrypted record propagates
the failure upward instead of recording it in flags. -/
theorem decrypt_failure_propagates :
    read_entry prims_decrypt_fail sample_wpk_data sample_file_enc 0 =
      .error "decrypt_entry failed" := by
  rfl

/-- C2 (amended): a rejection by the decompression primitive is
contained: `read_entry` still returns ok, the failure is recorded in the
entry's flags per the branching rule (ENCRYPTED with a non-zero key,
ERROR otherwise, mutually exclusive), the index table is intact, and
every other cached ordinal is untouched, so the container stays usable.
(A rejection by the decryption primitive instead propagates; see the
counterexample.) -/
theorem decode_failure_contained
    (P : DecodePrimitives) (wpk_data : Bytes) (f : WPKFile) (i : Int)
    (idx : WPKIndex) (e2 : WPKEntry)
    (hcache : lookup_entry f.entries i = none)
    (hrange : 0 ≤ i ∧ i < (f.indices.length : Int))
    (hget : f.indices.get? i.toNat = some idx)
    (hflags : idx.data_flags = WPKEntryDataFlags.NONE)
    (hzip : idx.zip_flag ≠ 0)
    (hpre : decrypt_stage P f.options (raw_slice wpk_data (WPKEntry.ofIndex idx)) =
      .ok e2)
    (hfail : P.decompress_entry e2 = none) :
    ∃ e f', read_entry P wpk_data f i = .ok (e, f') ∧
      (if key_nonzero f.options then
         e.data_flags.encrypted = true ∧ e.data_flags.error = false
       else
         e.data_flags.error = true ∧ e.data_flags.encrypted = false) ∧
      f'.indices = f.indices ∧
      ∀ j : Int, j ≠ i → lookup_entry f'.entries j = lookup_entry f.entries j := by
  have hshape := decrypt_stage_shape P f.options _ e2 hpre
  have hz : e2.zip_flag = idx.zip_flag := by
    rw [hshape]; simp [raw_slice, WPKEntry.ofIndex]
  have hfl : e2.data_flags = idx.data_flags := by
    rw [hshape]; simp [raw_slice, WPKEntry.ofIndex]
  have hext : e2.extension = [] := by
    rw [hshape]; simp [raw_slice, WPKEntry.ofIndex]
  have hload := load_entry_data_decompress_fail P f.options wpk_data
    (WPKEntry.ofIndex idx) e2 hpre (by rw [hz]; exact hzip) hfail
  rw [read_entry_miss P wpk_data f i idx hcache hrange hget]
  unfold resolve_index
  by_cases hk : key_nonzero f.options
  · rw [if_pos hk] at hload
    simp only [hload, hext]
    refine ⟨_, _, rfl, ?_, rfl, ?_⟩
    · rw [if_pos hk]
      exact ⟨rfl, by simp [hfl, hflags, WPKEntryDataFlags.NONE]⟩
    · exact fun j hj => lookup_entry_cons_ne i _ f.entries j (Ne.symm hj)
  · rw [if_neg hk] at hload
    simp only [hload, hext]
    refine ⟨_, _, rfl, ?_, rfl, ?_⟩
    · rw [if_neg hk]
      exact ⟨rfl, by simp [hfl, hflags, WPKEntryDataFlags.NONE]⟩
    · exact fun j hj => lookup_entry_cons_ne i _ f.entries j (Ne.symm hj)

/-- Witness for the amended C2 at a concrete archive (corrupt compressed
record, non-zero key). -/
theorem decode_failure_contained_witness :
    ∃ e f',
      read_entry prims_decompress_fail sample_wpk_data sample_file_zip_key 0 =
        .ok (e, f') ∧
      (if key_nonzero sample_file_zip_key.options then
         e.data_flags.encrypted = true ∧ e.data_flags.error = false
       else
         e.data_flags.error = true ∧ e.data_flags.encrypted = false) ∧
      f'.indices = sample_file_zip_key.indices ∧
      ∀ j : Int, j ≠ 0 →
        lookup_entry f'.entries j = lookup_entry sample_file_zip_key.entries j :=
  decode_failure_contained prims_decompress_fail sample_wpk_data
    sample_file_zip_key 0 sample_idx_zip
    (raw_slice sample_wpk_data (WPKEntry.ofIndex sample_idx_zip))
    rfl (by decide) rfl rfl (by decide) rfl rfl

/-- C3 counterexample: a record asking for 10 bytes of a 5-byte data
file — the claim says a short read is a hard I/O failure aborting the
resolution; instead `read_entry` completes successfully with the 5
available bytes silently truncated and no failure flag set. -/
theorem short_read_not_fatal :
    (read_entry prims_plain sample_wpk_data sample_file_short 0).toOption.map
        (fun p => (p.1.data, p.1.data_flags, p.1.file_length)) =
      some ([1, 2, 3, 4, 5], {}, 10) := by
  decide

/-- With no secondary layer detected, stages 4-6 leave the working bytes
unchanged (they only add flags, extension and category). -/
theorem secondary_and_classify_data_no_layers (P : DecodePrimitives)
    (e : WPKEntry) (hr : P.check_rotor e = false)
    (hn : P.check_nxs3 e = false) :
    (secondary_and_classify P e).data = e.data := by
  unfold secondary_and_classify
  dsimp only
  rw [hr]
  simp only [Bool.false_eq_true, if_false]
  rw [hn]
  simp only [Bool.false_eq_true, if_false]
  split <;> rfl

/-- C3 (amended): the raw-slice stage reads the bytes at positions
`[file_offset, file_offset + file_length)` of the data file, i.e.
`min file_length (size - file_offset)` bytes; a short read is silently
truncated rather than being a hard I/O failure: for an uncompressed,
unencrypted record with no secondary layer detected, resolution
completes successfully and the content is exactly the (possibly short)
slice. -/
theorem raw_slice_truncation
    (P : DecodePrimitives) (wpk_data : Bytes) (f : WPKFile) (i : Int)
    (idx : WPKIndex)
    (hcache : lookup_entry f.entries i = none)
    (hrange : 0 ≤ i ∧ i < (f.indices.length : Int))
    (hget : f.indices.get? i.toNat = some idx)
    (henc : idx.encrypt_flag = 0) (hzip : idx.zip_flag = 0)
    (hrot : P.check_rotor (raw_slice wpk_data (WPKEntry.ofIndex idx)) = false)
    (hnx : P.check_nxs3 (raw_slice wpk_data (WPKEntry.ofIndex idx)) = false) :
    ∃ e f', read_entry P wpk_data f i = .ok (e, f') ∧
      e.data = (wpk_data.drop idx.file_offset).take idx.file_length ∧
      e.data.length = min idx.file_length (wpk_data.length - idx.file_offset) := by
  have hd : decrypt_stage P f.options (raw_slice wpk_data (WPKEntry.ofIndex idx)) =
      .ok (raw_slice wpk_data (WPKEntry.ofIndex idx)) := by
    unfold decrypt_stage
    rw [if_neg (by simp [raw_slice, WPKEntry.ofIndex, henc])]
  have hload : load_entry_data P f.options wpk_data (WPKEntry.ofIndex idx) =
      .ok (secondary_and_classify P (raw_slice wpk_data (WPKEntry.ofIndex idx)),
           [(LogLevel.debug, "Entry %s: %s")]) := by
    unfold load_entry_data
    simp only [bind, Except.bind, hd]
    rw [if_neg (by simp [raw_slice, WPKEntry.ofIndex, hzip])]
  have hdata : (secondary_and_classify P
      (raw_slice wpk_data (WPKEntry.ofIndex idx))).data =
      (wpk_data.drop idx.file_offset).take idx.file_length := by
    rw [secondary_and_classify_data_no_layers P _ hrot hnx]
    simp [raw_slice, WPKEntry.ofIndex]
  have hlen : ((wpk_data.drop idx.file_offset).take idx.file_length).length =
      min idx.file_length (wpk_data.length - idx.file_offset) := by
    simp [List.length_take, List.length_drop]
  rw [read_entry_miss P wpk_data f i idx hcache hrange hget]
  unfold resolve_index
  simp only [hload]
  by_cases hx : (secondary_and_classify P
      (raw_slice wpk_data (WPKEntry.ofIndex idx))).extension = []
  · rw [if_neg (by rw [hx]; exact fun hc => hc rfl)]
    exact ⟨_, _, rfl, hdata, by rw [hdata]; exact hlen⟩
  · rw [if_pos hx]
    exact ⟨_, _, rfl, hdata, by rw [hdata]; exact hlen⟩

/-- Witness for the amended C3: the short-slice record (10 bytes asked,
5 available) resolves successfully to the 5 truncated bytes. -/
theorem raw_slice_truncation_witness :
    ∃ e f',
      read_entry prims_plain sample_wpk_data sample_file_short 0 = .ok (e, f') ∧
      e.data = (sample_wpk_data.drop sample_idx_short.file_offset).take
        sample_idx_short.file_length ∧
      e.data.length = min sample_idx_short.file_length
        (sample_wpk_data.length - sample_idx_short.file_offset) :=
  raw_slice_truncation prims_plain sample_wpk_data sample_file_short 0
    sample_idx_short rfl (by decide) rfl rfl rfl rfl rfl

/-- C7: the pairing policy applied to the user-supplied paths: (1) a
path sniffing as data-type gets its index sibling derived by extension
substitution (the supplied path itself becomes the data path); (2) a
path sniffing as index-type with no companion gets its data sibling
derived by the same substitution; (3) otherwise, when a second path was
explicitly given and sniffing it shows the pair was supplied in reversed
order (the second is an index-type file), the two paths are swapped.
Derivation is deterministic, pure extension substitution on the path
strings (`splitext_root`), never a function of file content. -/
theorem path_pairing_policy (fsread : Bytes → Bytes) (p : Bytes)
    (q_opt : Option Bytes) :
    (detect_file_type (fsread p) = some FileType.wpk →
       pair_paths fsread p q_opt =
         (splitext_root p ++ [46, 105, 100, 120], some p)) ∧
    (detect_file_type (fsread p) = some FileType.idx → q_opt = none →
       pair_paths fsread p q_opt =
         (p, some (splitext_root p ++ [46, 119, 112, 107]))) ∧
    (∀ q : Bytes, detect_file_type (fsread p) ≠ some FileType.wpk →
       ¬ (detect_file_type (fsread p) = some FileType.idx ∧ q_opt = none) →
       q_opt = some q → q ≠ [] →
       detect_file_type (fsread q) = some FileType.idx →
       pair_paths fsread p q_opt = (q, some p)) := by
  refine ⟨?_, ?_, ?_⟩
  · intro h
    simp only [pair_paths]
    rw [if_pos h]
  · intro h hq
    subst hq
    simp only [pair_paths]
    rw [if_neg (by rw [h]; simp), if_pos ⟨h, trivial⟩]
  · intro q h1 h2 hq hqne hdet
    subst hq
    simp only [pair_paths]
    rw [if_neg h1, if_neg h2, if_pos ⟨hqne, hdet⟩]

/-- Witness for C7: with the two-file sample filesystem all three
pairing clauses are exercised at concrete paths ("a.wpk" is data-type,
"b.idx" is index-type, "c" is unknown). -/
theorem path_pairing_policy_witness :
    pair_paths sample_fs [97, 46, 119, 112, 107] none =
      ([97, 46, 105, 100, 120], some [97, 46, 119, 112, 107]) ∧
    pair_paths sample_fs [98, 46, 105, 100, 120] none =
      ([98, 46, 105, 100, 120], some [98, 46, 119, 112, 107]) ∧
    pair_paths sample_fs [99] (some [98, 46, 105, 100, 120]) =
      ([98, 46, 105, 100, 120], some [99]) :=
  ⟨(path_pairing_policy sample_fs [97, 46, 119, 112, 107] none).1 (by decide),
   (path_pairing_policy sample_fs [98, 46, 105, 100, 120] none).2.1
     (by decide) rfl,
   (path_pairing_policy sample_fs [99] (some [98, 46, 105, 100, 120])).2.2
     [98, 46, 105, 100, 120] (by decide) (by decide) rfl (by decide) (by decide)⟩

/-- C10: opening never checks a magic signature on the index file: for
every 4-byte prefix whatsoever the record count is its little-endian
value and record parsing begins immediately on the remaining bytes;
`wpk_open` succeeds exactly when the structural parse succeeds (there is
no signature gate in front of it); and a concrete file whose header
matches neither magic (four zero bytes) opens as a zero-record archive
while the separate sniffing routine classifies it as unknown. -/
theorem open_ignores_signature (P : DecodePrimitives)
    (b0 b1 b2 b3 : Nat) (rest : Bytes) :
    read_indices P (b0 :: b1 :: b2 :: b3 :: rest) =
      read_indices_loop P (b0 + 256 * b1 + 65536 * b2 + 16777216 * b3) rest ∧
    (∀ (idx_path : Bytes) (opts : Option WPKReadOptions) (bs : Bytes),
        (wpk_open P idx_path none opts bs).isSome =
          (read_indices P bs).isSome) ∧
    read_indices P [0, 0, 0, 0] = some [] ∧
    is_idx_signature [0, 0, 0, 0] = false ∧
    is_wpk_signature [0, 0, 0, 0] = false ∧
    detect_file_type [0, 0, 0, 0] = none := by
  refine ⟨rfl, ?_, rfl, rfl, rfl, rfl⟩
  intro idx_path opts bs
  cases h : read_indices P bs <;> simp [wpk_open, h]

/-- Splitting a mapped range at its head, shifting the start index. -/
theorem range_succ_shift {α : Type} (g : Nat → α) (k m : Nat) :
    (List.range (m + 1)).map (fun t => g (k + t)) =
      g k :: (List.range m).map (fun t => g (k + 1 + t)) := by
  rw [List.range_succ_eq_map]
  simp [List.map_map, Function.comp]
  intro a _
  congr 1
  omega

/-- The extraction loop on a state whose ordinals from `k` on are
uncached writes, for each remaining ordinal in ascending order, exactly
the stateless `extracted_file` pair (and records the matching
directory-creation request), provided every record resolves without a
propagating exception. -/
theorem extract_loop_spec (P : DecodePrimitives) (wpk_data out_dir : Bytes)
    (idxs : List WPKIndex) (opts : WPKReadOptions) :
    ∀ (n k : Nat) (f : WPKFile) (fs : FS),
      f.indices = idxs → f.options = opts →
      k + n = idxs.length →
      (∀ j : Nat, k ≤ j → lookup_entry f.entries (j : Int) = none) →
      (∀ (i : Nat) (idx : WPKIndex), idxs.get? i = some idx →
        (resolve_index P opts wpk_data idx).isOk = true) →
      ∃ f', extract_loop P wpk_data out_dir f fs k n =
        .ok (f', { dirs := fs.dirs ++ ((List.range n).map (fun t =>
                     dirname (extracted_file P opts wpk_data out_dir idxs
                       (k + t)).1)),
                   files := fs.files ++ ((List.range n).map (fun t =>
                     extracted_file P opts wpk_data out_dir idxs (k + t))) }) ∧
        f'.indices = idxs := by
  intro n
  induction n with
  | zero =>
      intro k f fs hidx hopts _hlen _hcache _hok
      exact ⟨f, by simp [extract_loop], hidx⟩
  | succ m ih =>
      intro k f fs hidx hopts hlen hcache hok
      have hk_lt : k < idxs.length := by omega
      have htn : ((k : Int)).toNat = k := by omega
      have hget : f.indices.get? ((k : Int)).toNat =
          some (idxs.get ⟨k, hk_lt⟩) := by
        rw [hidx, htn]
        exact List.get?_eq_get hk_lt
      have hcachek : lookup_entry f.entries (k : Int) = none := hcache k le_rfl
      have hrange : 0 ≤ (k : Int) ∧ (k : Int) < (f.indices.length : Int) := by
        rw [hidx]
        omega
      have hres := hok k (idxs.get ⟨k, hk_lt⟩) (List.get?_eq_get hk_lt)
      cases hresolve : resolve_index P opts wpk_data (idxs.get ⟨k, hk_lt⟩) with
      | error msg =>
          rw [hresolve] at hres
          exact Bool.noConfusion hres
      | ok pr =>
          obtain ⟨e, logs⟩ := pr
          have hread : read_entry P wpk_data f (k : Int) =
              .ok (e, { f with entries := ((k : Int), e) :: f.entries,
                               decode_calls := f.decode_calls + 1,
                               log := f.log ++ logs }) := by
            rw [read_entry_miss P wpk_data f (k : Int) _ hcachek hrange hget]
            rw [hopts, hresolve]
          have hef : extracted_file P opts wpk_data out_dir idxs k =
              (path_join out_dir e.filename, e.data) := by
            unfold extracted_file resolved_at
            rw [List.get?_eq_get hk_lt]
            simp only [Option.bind, hresolve]
            rfl
          obtain ⟨f', hloop, hfidx⟩ := ih (k + 1)
            ({ f with entries := ((k : Int), e) :: f.entries,
                      decode_calls := f.decode_calls + 1,
                      log := f.log ++ logs })
            (save_to_file fs (path_join out_dir e.filename) e.data)
            hidx hopts (by omega)
            (by
              intro j hj
              have hne : (k : Int) ≠ (j : Int) := by omega
              rw [lookup_entry_cons_ne (k : Int) e f.entries (j : Int) hne]
              exact hcache j (by omega))
            hok
          refine ⟨f', ?_, hfidx⟩
          show extract_loop P wpk_data out_dir f fs k (m + 1) = _
          rw [extract_loop]
          simp only [hread]
          rw [hloop]
          suffices hFS :
              ({ dirs := (save_to_file fs (path_join out_dir e.filename)
                    e.data).dirs ++
                   ((List.range m).map (fun t =>
                     dirname (extracted_file P opts wpk_data out_dir idxs
                       (k + 1 + t)).1)),
                 files := (save_to_file fs (path_join out_dir e.filename)
                    e.data).files ++
                   ((List.range m).map (fun t =>
                     extracted_file P opts wpk_data out_dir idxs
                       (k + 1 + t))) } : FS) =
              { dirs := fs.dirs ++ ((List.range (m + 1)).map (fun t =>
                  dirname (extracted_file P opts wpk_data out_dir idxs
                    (k + t)).1)),
                files := fs.files ++ ((List.range (m + 1)).map (fun t =>
                  extracted_file P opts wpk_data out_dir idxs (k + t))) } by
            rw [hFS]
          simp only [FS.mk.injEq]
          constructor
          · show (fs.dirs ++ [dirname (path_join out_dir e.filename)]) ++ _ = _
            rw [List.append_assoc]
            congr 1
            rw [range_succ_shift (fun t =>
              dirname (extracted_file P opts wpk_data out_dir idxs t).1) k m]
            rw [hef]
            rfl
          · show (fs.files ++ [(path_join out_dir e.filename, e.data)]) ++ _ = _
            rw [List.append_assoc]
            congr 1
            rw [range_succ_shift (fun t =>
              extracted_file P opts wpk_data out_dir idxs t) k m]
            rw [hef]
            rfl

/-- Joining a well-formed directory with a relative name inserts exactly
one slash. -/
theorem path_join_slash (a b : Bytes) (ha : a ≠ [])
    (ha2 : a.getLast? ≠ some 47) (hb : b.head? ≠ some 47) :
    path_join a b = a ++ 47 :: b := by
  unfold path_join
  rw [if_neg hb, if_neg (not_or.mpr ⟨ha, ha2⟩)]

/-- When every record resolves, `resolved_at` is populated below the
record count. -/
theorem resolved_at_isSome (P : DecodePrimitives) (opts : WPKReadOptions)
    (wpk_data : Bytes) (idxs : List WPKIndex) (i : Nat)
    (hi : i < idxs.length)
    (hok : ∀ (j : Nat) (idx : WPKIndex), idxs.get? j = some idx →
      (resolve_index P opts wpk_data idx).isOk = true) :
    ∃ e, resolved_at P opts wpk_data idxs i = some e := by
  have hget := List.get?_eq_get hi
  have hres := hok i _ hget
  cases hresolve : resolve_index P opts wpk_data (idxs.get ⟨i, hi⟩) with
  | error m =>
      rw [hresolve] at hres
      exact Bool.noConfusion hres
  | ok pr =>
      refine ⟨pr.1, ?_⟩
      unfold resolved_at
      rw [hget, Option.some_bind, hresolve]
      rfl

/-- C6: `extract_all` iterates the ordinals `0..count` in ascending
order, resolving each via the cache, and writes each entry's final
content bytes verbatim to `out_dir` joined with the resolved filename,
recording the matching directory creation; a zero-record archive writes
zero files without error; on N records with pairwise distinct resolved
filenames (relative names, well-formed destination) the N written paths
are pairwise distinct, so exactly N files are produced; and since every
ordinal that resolves is written, ERROR/ENCRYPTED-flagged entries are
written with the bytes they hold rather than skipped. -/
theorem extract_all_writes (P : DecodePrimitives) (wpk_data : Bytes)
    (f : WPKFile) (out_dir : Bytes) (fs : FS)
    (hfresh : f.entries = [])
    (hok : ∀ (i : Nat) (idx : WPKIndex), f.indices.get? i = some idx →
      (resolve_index P f.options wpk_data idx).isOk = true) :
    (∃ f', extract_all P wpk_data f out_dir fs =
      .ok (f', { dirs := fs.dirs ++
                   ((List.range f.indices.length).map (fun i =>
                     dirname (extracted_file P f.options wpk_data out_dir
                       f.indices i).1)),
                 files := fs.files ++
                   ((List.range f.indices.length).map
                     (extracted_file P f.options wpk_data out_dir
                       f.indices)) })) ∧
    (f.indices = [] → extract_all P wpk_data f out_dir fs = .ok (f, fs)) ∧
    (out_dir ≠ [] → out_dir.getLast? ≠ some 47 →
     (∀ i : Nat, i < f.indices.length →
        (resolved_name_at P f.options wpk_data f.indices i).head? ≠ some 47) →
     ((List.range f.indices.length).map
        (resolved_name_at P f.options wpk_data f.indices)).Nodup →
     ((List.range f.indices.length).map (fun i =>
        (extracted_file P f.options wpk_data out_dir f.indices i).1)).Nodup) := by
  refine ⟨?_, ?_, ?_⟩
  · obtain ⟨f', hloop, _⟩ := extract_loop_spec P wpk_data out_dir f.indices
      f.options f.indices.length 0 f fs rfl rfl (by omega)
      (by intro j _; rw [hfresh]; rfl) hok
    simp only [Nat.zero_add] at hloop
    exact ⟨f', hloop⟩
  · intro h0
    simp [extract_all, h0, extract_loop]
  · intro hod hod2 hheads hnodup
    have hpath : ∀ i ∈ List.range f.indices.length,
        (extracted_file P f.options wpk_data out_dir f.indices i).1 =
          out_dir ++ 47 :: resolved_name_at P f.options wpk_data f.indices i := by
      intro i hi
      rw [List.mem_range] at hi
      obtain ⟨e, he⟩ := resolved_at_isSome P f.options wpk_data f.indices i hi hok
      have hhead : (resolved_name_at P f.options wpk_data f.indices i).head? ≠
          some 47 := hheads i hi
      unfold resolved_name_at at hhead ⊢
      unfold extracted_file
      rw [he] at hhead ⊢
      exact path_join_slash out_dir e.filename hod hod2 hhead
    rw [List.map_congr_left hpath]
    rw [show (List.range f.indices.length).map (fun i =>
          out_dir ++ 47 :: resolved_name_at P f.options wpk_data f.indices i) =
        ((List.range f.indices.length).map
          (resolved_name_at P f.options wpk_data f.indices)).map
            (fun nm => out_dir ++ 47 :: nm) from by rw [List.map_map]; rfl]
    refine List.Nodup.map_on ?_ hnodup
    intro x _ y _ hxy
    have h2 := List.append_cancel_left hxy
    injection h2

/-- Witness for C6 on a concrete two-record archive with distinct names
"a" and "b", destination "o": extraction succeeds with the characterized
writes and the two written paths are distinct. -/
theorem extract_all_writes_witness :
    (∃ f', extract_all prims_plain sample_wpk_data sample_file_two [111]
        ({} : FS) =
      .ok (f', { dirs := ({} : FS).dirs ++
                   ((List.range sample_file_two.indices.length).map (fun i =>
                     dirname (extracted_file prims_plain
                       sample_file_two.options sample_wpk_data [111]
                       sample_file_two.indices i).1)),
                 files := ({} : FS).files ++
                   ((List.range sample_file_two.indices.length).map
                     (extracted_file prims_plain sample_file_two.options
                       sample_wpk_data [111] sample_file_two.indices)) })) ∧
    ((List.range sample_file_two.indices.length).map (fun i =>
        (extracted_file prims_plain sample_file_two.options sample_wpk_data
          [111] sample_file_two.indices i).1)).Nodup := by
  have hok : ∀ (i : Nat) (idx : WPKIndex),
      sample_file_two.indices.get? i = some idx →
      (resolve_index prims_plain sample_file_two.options sample_wpk_data
        idx).isOk = true := by
    intro i idx hget
    match i, hget with
    | 0, h =>
        injection h with h
        rw [← h]
        rfl
    | 1, h =>
        injection h with h
        rw [← h]
        rfl
  have h := extract_all_writes prims_plain sample_wpk_data sample_file_two
    [111] ({} : FS) rfl hok
  refine ⟨h.1, h.2.2 (by decide) (by decide) (by decide) (by decide)⟩
